import Mathlib

/-!
Verification of the `ai-cli` streaming client (src/src/main.rs).

Strings are modelled as `List Char` (the code is checked to be valid UTF-8
before any string processing happens, so a sequence of Unicode scalar values
is the faithful model).  The `serde_json` parser is an external library; the
decoder is parameterised over an abstract parse function
`List Char → Option ChatCompletionResponse` (a deterministic function of the
payload text, which is exactly what `serde_json::from_str` is); concrete
parse functions used in witnesses record `serde_json`'s verdict on one
concrete payload each.
-/

/-- `ChoiceDelta` (main.rs lines 131-134): optional `content` string. -/
structure ChoiceDelta where
  content : Option (List Char)
deriving DecidableEq, Repr

/-- `CompletionChoice` (main.rs lines 126-129). -/
structure CompletionChoice where
  delta : ChoiceDelta
deriving DecidableEq, Repr

/-- `ChatCompletionResponse` (main.rs lines 120-124): the JSON shape the
decoder consumes, `{ choices: [ { delta: { content?: string } } ] }`. -/
structure ChatCompletionResponse where
  choices : List CompletionChoice
deriving DecidableEq, Repr

/-- `ChatMessage` (main.rs lines 114-118). -/
structure ChatMessage where
  role : List Char
  content : List Char
deriving DecidableEq, Repr

/-- `ChatCompletionRequest` (main.rs lines 105-112).  The `temperature`
field carries `#[serde(skip_serializing_if = "Option::is_none")]`. -/
structure ChatCompletionRequest where
  model : List Char
  messages : List ChatMessage
  stream : Bool
  temperature : Option ℚ
deriving DecidableEq, Repr

/-- Whether serialisation of the request includes a `temperature` field:
by `skip_serializing_if = "Option::is_none"` it is present iff the option
is `some` (main.rs lines 110-111). -/
def serializesTemperature (r : ChatCompletionRequest) : Bool :=
  !r.temperature.isNone

/-- `AppConfig` (main.rs lines 32-40).  `f32` temperatures are modelled as
rationals: every finite `f32` is a rational and `f32` comparison agrees with
rational order on finite values. -/
structure AppConfig where
  model : List Char
  base_url : List Char
  api_key : Option (List Char)
  default_prompt : Option (List Char)
  temperature : Option ℚ
  timeout_secs : Nat
deriving DecidableEq, Repr

/-- The inherent `AppConfig::default()` (main.rs lines 42-53).  Note Rust
resolves `AppConfig::default()` to this inherent function, not to the
derived `Default` trait implementation, so this is the value used by
`load_config` on first run and by the unit test `test_config_defaults`. -/
def AppConfig.default : AppConfig :=
  { model := "llama3".toList
    base_url := "http://localhost:11434/v1".toList
    api_key := none
    default_prompt := none
    temperature := some (7/10)
    timeout_secs := 300 }

/-- `Args` (main.rs lines 56-103), after clap parsing. -/
structure Args where
  files : List (List Char)
  prompt : Option (List Char)
  model : Option (List Char)
  base_url : Option (List Char)
  api_key : Option (List Char)
  verbose : Nat
  version : Bool
  temperature : Option ℚ
  timeout : Option Nat
deriving Repr

/-- `validate_temperature` (main.rs lines 215-223):
`if !(0.0..=2.0).contains(&temperature) { Err(..) } else { Ok(temperature) }`.
`RangeInclusive::contains` is `0 ≤ t && t ≤ 2`; the error value (a message
string) is abstracted to `none`. -/
def validate_temperature (t : ℚ) : Option ℚ :=
  if ¬ (0 ≤ t ∧ t ≤ 2) then none else some t

/-- `load_config` (main.rs lines 275-299): when the config file does not
exist it writes the defaults and returns `AppConfig::default()`; otherwise
it returns the parsed file contents.  Filesystem access and TOML parsing
are abstracted: `fileConfig` is `none` when the file is absent (first run)
and `some c` when it exists and parses to `c`. -/
def load_config (fileConfig : Option AppConfig) : AppConfig :=
  match fileConfig with
  | none => AppConfig.default
  | some c => c

/-- `get_final_config` (main.rs lines 226-272): CLI overrides applied on top
of the loaded config; the temperature that survives (CLI if given, else the
config file's, if any) is validated; a validation failure aborts (`none`). -/
def get_final_config (args : Args) (loaded : AppConfig) : Option AppConfig :=
  let c := loaded
  let c := match args.model with
    | some m => { c with model := m }
    | none => c
  let c := match args.base_url with
    | some b => { c with base_url := b }
    | none => c
  let c := match args.api_key with
    | some k => { c with api_key := some k }
    | none => c
  let afterTemp : Option AppConfig :=
    match args.temperature with
    | some t => (validate_temperature t).map (fun v => { c with temperature := some v })
    | none =>
      match c.temperature with
      | some t => (validate_temperature t).map (fun v => { c with temperature := some v })
      | none => some c
  afterTemp.map (fun c2 =>
    match args.timeout with
    | some secs => { c2 with timeout_secs := secs }
    | none => c2)

/-- Building the request in `main` (main.rs lines 187-195): one user-role
message, `stream = true`, temperature copied from the effective config. -/
def build_request (config : AppConfig) (input : List Char) : ChatCompletionRequest :=
  { model := config.model
    messages := [{ role := "user".toList, content := input }]
    stream := true
    temperature := config.temperature }

/-- `read_input` (main.rs lines 329-382).  `stdinTerminal` is
`io::stdin().is_terminal()`; `stdin` is what reading stdin to EOF would
yield.  With files present, the per-file loop pushes each file's content
followed by `'\n'`; stdin is read (into the same accumulator) only in the
two no-files branches; finally an optional prompt is prepended as
`format!("{} {}\n{}", "Prompt:", prompt, input)`. -/
def read_input (files : List (List Char)) (prompt : Option (List Char))
    (stdinTerminal : Bool) (stdin : List Char) : List Char :=
  let input0 : List Char :=
    if !files.isEmpty then
      files.foldl (fun acc f => acc ++ f ++ ['\n']) []
    else []
  let input1 : List Char :=
    if stdinTerminal && files.isEmpty then input0 ++ stdin
    else if !files.isEmpty then input0
    else input0 ++ stdin
  match prompt with
  | some p => "Prompt:".toList ++ [' '] ++ p ++ ['\n'] ++ input1
  | none => input1

/-- Rust `char::is_whitespace`: the Unicode `White_Space` property
(25 scalar values), used by `str::trim`. -/
def rustIsWhitespace (c : Char) : Bool :=
  c == ' ' || c == '\t' || c == '\n' || c == '\x0B' || c == '\x0C' || c == '\r' ||
  c == '\u0085' || c == ' ' || c == ' ' ||
  (' ' ≤ c && c ≤ ' ') ||
  c == ' ' || c == ' ' || c == ' ' || c == ' ' || c == '　'

/-- Rust `str::trim`: strip leading and trailing whitespace. -/
def rustTrim (l : List Char) : List Char :=
  ((l.dropWhile rustIsWhitespace).reverse.dropWhile rustIsWhitespace).reverse

/-- The 6-character SSE prefix `"data: "` (main.rs line 496). -/
def dataTag : List Char := "data: ".toList

/-- The end-of-stream sentinel `"data: [DONE]"` (main.rs lines 496, 514). -/
def doneTag : List Char := "data: [DONE]".toList

/-- The per-choice emission loop (main.rs lines 501-506): for each choice,
if `delta.content` is `Some(content)` it is printed (and stdout flushed) —
note there is no emptiness check on `content`.  Events are modelled as the
list of printed strings, in print order. -/
def emitChoices : List CompletionChoice → List (List Char)
  | [] => []
  | c :: rest =>
    match c.delta.content with
    | some content => content :: emitChoices rest
    | none => emitChoices rest

/-- Classification of one complete line (main.rs lines 495-516): the line is
trimmed, then: a `"data: "` line that is not a `"data: [DONE]"` line has the
text after the 6-character prefix taken as payload; if the payload is
nonempty it is JSON-parsed, a parse failure being logged and swallowed; on
success the choices are emitted.  The `else if` branch for `"data: [DONE]"`
only logs, and every other line is ignored, so all three produce no event. -/
def processLine (parse : List Char → Option ChatCompletionResponse)
    (raw : List Char) : List (List Char) :=
  if dataTag.isPrefixOf (rustTrim raw) && !(doneTag.isPrefixOf (rustTrim raw)) then
    if !((rustTrim raw).drop 6).isEmpty then
      match parse ((rustTrim raw).drop 6) with
      | some resp => emitChoices resp.choices
      | none => []
    else []
  else []

/-- `incomplete.find('\n')` followed by the split into `incomplete[..pos]`
and `incomplete[pos + 1..]` (main.rs lines 494, 495, 517): locates the first
newline and returns the text before it and the text after it. -/
def splitFirstNL : List Char → Option (List Char × List Char)
  | [] => none
  | c :: cs =>
    if c = '\n' then some ([], cs)
    else
      match splitFirstNL cs with
      | none => none
      | some (l, r) => some (c :: l, r)

/-- The drain loop (main.rs lines 494-518) written with explicit fuel so
that it is structurally recursive: each iteration removes at least the
newline character from the buffer, so `buf.length` iterations always reach
the fixed point; `drain` below instantiates the fuel accordingly. -/
def drainFuel (parse : List Char → Option ChatCompletionResponse) :
    Nat → List Char → List (List Char) × List Char
  | 0, buf => ([], buf)
  | fuel + 1, buf =>
    match splitFirstNL buf with
    | none => ([], buf)
    | some (line, rest) =>
      let p := drainFuel parse fuel rest
      (processLine parse line ++ p.1, p.2)

/-- The drain loop run to its fixed point: extract and classify complete
lines while a newline exists, returning the emitted events in order and the
final buffer (the text after the last newline). -/
def drain (parse : List Char → Option ChatCompletionResponse)
    (buf : List Char) : List (List Char) × List Char :=
  drainFuel parse buf.length buf

/-- Decoder state of `stream_response`: the `incomplete` accumulator and the
events printed so far. -/
structure DecState where
  incomplete : List Char
  events : List (List Char)
deriving DecidableEq, Repr

/-- One iteration of the chunk loop (main.rs lines 483-518): append the
chunk to `incomplete`, then drain complete lines. -/
def feedChunk (parse : List Char → Option ChatCompletionResponse)
    (s : DecState) (chunk : List Char) : DecState :=
  let buf := s.incomplete ++ chunk
  let p := drain parse buf
  { incomplete := p.2, events := s.events ++ p.1 }

/-- The chunk-processing part of `stream_response` (main.rs lines 457-519):
the first chunk is appended to `incomplete` with no drain (lines 469-480);
each subsequent chunk is appended and then drained (lines 483-518).  An
empty stream is the `EmptyStream` error (line 479), modelled as `none`. -/
def streamRun (parse : List Char → Option ChatCompletionResponse)
    (chunks : List (List Char)) : Option DecState :=
  match chunks with
  | [] => none
  | first :: rest => some (rest.foldl (feedChunk parse) { incomplete := first, events := [] })

/-- The sequence of `DeltaEvent`s emitted for a chunk sequence. -/
def streamEvents (parse : List Char → Option ChatCompletionResponse)
    (chunks : List (List Char)) : Option (List (List Char)) :=
  (streamRun parse chunks).map (fun s => s.events)

/-- The spec's `LineBuffer` invariant, in decidable form: the buffer holds
only the unterminated tail of the input seen so far, i.e. no newline
remains in it (everything up to the last newline has been extracted). -/
def lineBufferNoNL (s : DecState) : Prop := '\n' ∉ s.incomplete

/-- Joining lines with LF framing. -/
def unlinesLF (ls : List (List Char)) : List Char :=
  ls.foldr (fun l acc => l ++ '\n' :: acc) []

/-- Joining the same lines with CRLF framing. -/
def unlinesCRLF (ls : List (List Char)) : List Char :=
  ls.foldr (fun l acc => l ++ '\r' :: '\n' :: acc) []

/-- The concrete payload `{"choices":[{"delta":{"content":"Hi"}}]}`. -/
def payloadHi : List Char :=
  "\x7b\"choices\":[\x7b\"delta\":\x7b\"content\":\"Hi\"\x7d\x7d]\x7d".toList

/-- `serde_json`'s verdict on `payloadHi`: it parses to one choice whose
`delta.content` is `Some("Hi")`; other payloads are left unparsed (`none`),
which is `serde_json`'s verdict on the non-JSON payloads this function is
applied to in the theorems below. -/
def parseHi : List Char → Option ChatCompletionResponse := fun d =>
  if d = payloadHi then
    some { choices := [{ delta := { content := some "Hi".toList } }] }
  else none

/-- The concrete payload `{"choices":[{"delta":{"content":""}}]}`. -/
def payloadEmpty : List Char :=
  "\x7b\"choices\":[\x7b\"delta\":\x7b\"content\":\"\"\x7d\x7d]\x7d".toList

/-- `serde_json`'s verdict on `payloadEmpty`: one choice whose
`delta.content` is `Some("")`. -/
def parseEmpty : List Char → Option ChatCompletionResponse := fun d =>
  if d = payloadEmpty then
    some { choices := [{ delta := { content := some [] } }] }
  else none

/-- A complete SSE stream consisting of one well-formed data line. -/
def lineHi : List Char := dataTag ++ payloadHi ++ ['\n']

/-- `Args` with no command-line overrides at all. -/
def argsNoOverrides : Args :=
  { files := [], prompt := none, model := none, base_url := none,
    api_key := none, verbose := 0, version := false,
    temperature := none, timeout := none }

/-! ### Helper lemmas about the drain loop -/

lemma splitFirstNL_of_not_mem : ∀ {buf : List Char}, '\n' ∉ buf → splitFirstNL buf = none
  | [], _ => rfl
  | c :: cs, h => by
    have hc : ¬ c = '\n' := fun hc => h (hc ▸ List.mem_cons_self c cs)
    have hcs : '\n' ∉ cs := fun hm => h (List.mem_cons_of_mem _ hm)
    simp [splitFirstNL, hc, splitFirstNL_of_not_mem hcs]

lemma splitFirstNL_append : ∀ {line : List Char}, '\n' ∉ line → ∀ (rest : List Char),
    splitFirstNL (line ++ '\n' :: rest) = some (line, rest)
  | [], _, rest => by simp [splitFirstNL]
  | c :: cs, h, rest => by
    have hc : ¬ c = '\n' := fun hc => h (hc ▸ List.mem_cons_self c cs)
    have hcs : '\n' ∉ cs := fun hm => h (List.mem_cons_of_mem _ hm)
    simp [splitFirstNL, hc, splitFirstNL_append hcs rest]

lemma splitFirstNL_length : ∀ {buf line rest : List Char},
    splitFirstNL buf = some (line, rest) → rest.length < buf.length
  | [], _, _, h => by simp [splitFirstNL] at h
  | c :: cs, line, rest, h => by
    by_cases hc : c = '\n'
    · simp only [splitFirstNL, if_pos hc, Option.some.injEq, Prod.mk.injEq] at h
      simp [← h.2]
    · simp only [splitFirstNL, if_neg hc] at h
      cases hsub : splitFirstNL cs with
      | none => rw [hsub] at h; cases h
      | some p =>
        obtain ⟨l, r⟩ := p
        rw [hsub] at h
        simp only [Option.some.injEq, Prod.mk.injEq] at h
        have := splitFirstNL_length hsub
        simp only [← h.2, List.length_cons]
        omega

lemma drainFuel_congr (parse : List Char → Option ChatCompletionResponse) :
    ∀ (f1 f2 : Nat) (buf : List Char), buf.length ≤ f1 → buf.length ≤ f2 →
    drainFuel parse f1 buf = drainFuel parse f2 buf := by
  intro f1
  induction f1 with
  | zero =>
    intro f2 buf h1 _
    have hb : buf = [] := List.length_eq_zero.mp (Nat.le_zero.mp h1)
    subst hb
    cases f2 <;> rfl
  | succ f ih =>
    intro f2 buf h1 h2
    cases f2 with
    | zero =>
      have hb : buf = [] := List.length_eq_zero.mp (Nat.le_zero.mp h2)
      subst hb; rfl
    | succ g =>
      cases h : splitFirstNL buf with
      | none => simp [drainFuel, h]
      | some p =>
        obtain ⟨line, rest⟩ := p
        have hlt := splitFirstNL_length h
        simp only [drainFuel, h]
        rw [ih g rest (Nat.le_of_lt_succ (Nat.lt_of_lt_of_le hlt h1))
              (Nat.le_of_lt_succ (Nat.lt_of_lt_of_le hlt h2))]

lemma drain_cons (parse : List Char → Option ChatCompletionResponse)
    {line : List Char} (h : '\n' ∉ line) (rest : List Char) :
    drain parse (line ++ '\n' :: rest) =
      (processLine parse line ++ (drain parse rest).1, (drain parse rest).2) := by
  unfold drain
  have hlen : (line ++ '\n' :: rest).length = (line.length + rest.length) + 1 := by
    simp [List.length_append]
    omega
  rw [hlen]
  simp only [drainFuel, splitFirstNL_append h rest]
  rw [drainFuel_congr parse (line.length + rest.length) rest.length rest
        (by omega) (Nat.le_refl _)]

lemma drain_of_not_mem (parse : List Char → Option ChatCompletionResponse)
    {buf : List Char} (h : '\n' ∉ buf) : drain parse buf = ([], buf) := by
  unfold drain
  cases hl : buf.length with
  | zero => rfl
  | succ n => simp [drainFuel, splitFirstNL_of_not_mem h]

lemma rustTrim_append_cr (l : List Char) : rustTrim (l ++ ['\r']) = rustTrim l := by
  unfold rustTrim
  rw [List.dropWhile_append]
  by_cases he : (l.dropWhile rustIsWhitespace).isEmpty
  · rw [if_pos he]
    have h2 : l.dropWhile rustIsWhitespace = [] := List.isEmpty_iff.mp he
    rw [h2]
    rfl
  · rw [if_neg he, List.reverse_append]
    have hr : (['\r'] : List Char).reverse = ['\r'] := rfl
    rw [hr]
    have hcons : ('\r' :: (l.dropWhile rustIsWhitespace).reverse).dropWhile rustIsWhitespace
        = (l.dropWhile rustIsWhitespace).reverse.dropWhile rustIsWhitespace := by
      rw [List.dropWhile_cons]
      rw [if_pos (by decide : rustIsWhitespace '\x0d' = true)]
    rw [show (['\r'] : List Char) ++ (l.dropWhile rustIsWhitespace).reverse
          = '\r' :: (l.dropWhile rustIsWhitespace).reverse from rfl, hcons]

lemma processLine_append_cr (parse : List Char → Option ChatCompletionResponse)
    (l : List Char) : processLine parse (l ++ ['\r']) = processLine parse l := by
  unfold processLine
  rw [rustTrim_append_cr]

lemma emitChoices_eq_filterMap : ∀ (cs : List CompletionChoice),
    emitChoices cs = cs.filterMap (fun c => c.delta.content)
  | [] => rfl
  | c :: rest => by
    cases h : c.delta.content <;>
      simp [emitChoices, List.filterMap_cons, h, emitChoices_eq_filterMap rest]

lemma isPrefixOf_append_self (l r : List Char) : l.isPrefixOf (l ++ r) = true :=
  List.isPrefixOf_iff_prefix.mpr (List.prefix_append l r)

lemma drop_six_dataTag (payload : List Char) : (dataTag ++ payload).drop 6 = payload := by
  have h6 : dataTag.length = 6 := rfl
  rw [← h6]
  exact List.drop_left dataTag payload

lemma dropWhile_head_false {p : Char → Bool} :
    ∀ {l : List Char} {x : Char} {xs : List Char},
    l.dropWhile p = x :: xs → p x = false
  | [], x, xs, h => by simp [List.dropWhile] at h
  | a :: as, x, xs, h => by
    rw [List.dropWhile_cons] at h
    by_cases hp : p a
    · rw [if_pos hp] at h
      exact dropWhile_head_false h
    · rw [if_neg hp] at h
      injection h with h1 _
      subst h1
      simpa using hp

lemma rustTrim_ne_dataTag (l : List Char) : rustTrim l ≠ dataTag := by
  intro h
  unfold rustTrim at h
  have h2 := congrArg List.reverse h
  rw [List.reverse_reverse] at h2
  have h4 : dataTag.reverse = ' ' :: [':', 'a', 't', 'a', 'd'] := by decide
  have h5 := dropWhile_head_false (h2.trans h4)
  exact absurd h5 (by decide)

lemma foldl_newline_join : ∀ (files : List (List Char)) (acc : List Char),
    List.foldl (fun acc f => acc ++ (f ++ ['\n'])) acc files =
      acc ++ (files.map (fun f => f ++ ['\n'])).flatten
  | [], acc => by simp
  | f :: fs, acc => by
    rw [List.foldl_cons, foldl_newline_join fs]
    simp [List.append_assoc]

/-! ### Claim theorems -/

/-- Claim C5: `validate_temperature` fails exactly on arguments outside the
closed interval [0, 2]; in-range arguments, the boundaries 0 and 2
included, are accepted and returned unchanged. -/
theorem c5_validate_temperature_range (t : ℚ) :
    (validate_temperature t = none ↔ (t < 0 ∨ 2 < t)) ∧
    (0 ≤ t → t ≤ 2 → validate_temperature t = some t) := by
  unfold validate_temperature
  by_cases h : 0 ≤ t ∧ t ≤ 2
  · rw [if_neg (not_not_intro h)]
    refine ⟨⟨fun hc => by simp at hc, fun hor => ?_⟩, fun _ _ => rfl⟩
    obtain ⟨h0, h2⟩ := h
    rcases hor with h' | h' <;> linarith
  · rw [if_pos h]
    refine ⟨⟨fun _ => ?_, fun _ => rfl⟩, fun h0 h2 => absurd ⟨h0, h2⟩ h⟩
    rcases not_and_or.mp h with h' | h'
    · exact Or.inl (lt_of_not_le h')
    · exact Or.inr (lt_of_not_le h')

/-- Claim C5, witness: the boundary values 0 and 2 are accepted and returned
unchanged; -0.0001 and 2.0001 are rejected. -/
theorem c5_witness :
    validate_temperature 0 = some 0 ∧ validate_temperature 2 = some 2 ∧
    validate_temperature (-1/10000) = none ∧
    validate_temperature (20001/10000) = none :=
  ⟨(c5_validate_temperature_range 0).2 le_rfl (by norm_num),
   (c5_validate_temperature_range 2).2 (by norm_num) le_rfl,
   (c5_validate_temperature_range _).1.mpr (Or.inl (by norm_num)),
   (c5_validate_temperature_range _).1.mpr (Or.inr (by norm_num))⟩

/-- Claim C6: with a non-empty file list, `read_input` never reads stdin
(the result is independent of the stdin contents and of whether stdin is a
terminal), and produces the files' contents in order, each followed by one
newline, with `"Prompt: " ++ p ++ "\n"` prepended when a prompt is given. -/
theorem c6_read_input_files (files : List (List Char)) (pr : Option (List Char))
    (p stdin stdin' : List Char) (t t' : Bool) (h : files ≠ []) :
    read_input files pr t stdin = read_input files pr t' stdin' ∧
    read_input files none t stdin = (files.map (fun f => f ++ ['\n'])).flatten ∧
    read_input files (some p) t stdin =
      "Prompt: ".toList ++ p ++ '\n' :: (files.map (fun f => f ++ ['\n'])).flatten := by
  have he : files.isEmpty = false := by
    cases files with
    | nil => exact absurd rfl h
    | cons a as => rfl
  have hpr : "Prompt: ".toList = "Prompt:".toList ++ [' '] := by decide
  refine ⟨?_, ?_, ?_⟩ <;>
    simp [read_input, he, foldl_newline_join, hpr, List.append_assoc]

/-- Claim C6, witness: files containing `"foo"` and `"bar"` with prompt
`"Q"` yield `"Prompt: Q\nfoo\nbar\n"`. -/
theorem c6_witness :
    read_input ["foo".toList, "bar".toList] (some "Q".toList) false "zz".toList =
      "Prompt: Q\nfoo\nbar\n".toList :=
  ((c6_read_input_files ["foo".toList, "bar".toList] none "Q".toList
      "zz".toList [] false false (by decide)).2.2).trans (by decide)

/-- Claim C10: every trimmed line that passes the 6-character `"data: "`
prefix test has a non-empty payload after the prefix — a trimmed string
cannot end in the prefix's trailing space — so the `!data.is_empty()` guard
in the drain loop (main.rs line 498) can never see an empty payload. -/
theorem c10_empty_payload_guard_unreachable (line : List Char)
    (h : dataTag.isPrefixOf (rustTrim line) = true) :
    ((rustTrim line).drop 6).isEmpty = false := by
  obtain ⟨u, hu⟩ := List.isPrefixOf_iff_prefix.mp h
  have hdrop : (rustTrim line).drop 6 = u := by
    rw [← hu]
    exact drop_six_dataTag u
  rw [hdrop]
  cases u with
  | nil =>
    rw [List.append_nil] at hu
    exact absurd hu.symm (rustTrim_ne_dataTag line)
  | cons a as => rfl

/-- Claim C10, witness: the line `"data: x"` passes the prefix test and has
the non-empty payload `"x"`. -/
theorem c10_witness :
    ((rustTrim "data: x".toList).drop 6).isEmpty = false :=
  c10_empty_payload_guard_unreachable "data: x".toList (by decide)

/-- Claim C7: a complete line that trims to the sentinel `"data: [DONE]"`
contributes no event and leaves the rest of the drain unchanged — the
equation holds for every parse function, so the line is never handed to the
JSON parser (its verdict cannot matter), and decoding of subsequent frames
continues exactly as if the sentinel line were absent. -/
theorem c7_done_line_skipped (parse : List Char → Option ChatCompletionResponse)
    (line rest : List Char) (htrim : rustTrim line = doneTag)
    (hnl : '\n' ∉ line) :
    drain parse (line ++ '\n' :: rest) = drain parse rest := by
  rw [drain_cons parse hnl rest]
  have hp : processLine parse line = [] := by
    unfold processLine
    rw [htrim]
    rw [show (dataTag.isPrefixOf doneTag && !(doneTag.isPrefixOf doneTag)) = false
          from by decide]
    simp
  rw [hp]
  simp

/-- Claim C7, witness: a `"data: [DONE]"` line followed by a well-formed
data line; the sentinel contributes nothing and the later frame still
produces its event. -/
theorem c7_witness :
    drain parseHi (doneTag ++ '\n' :: (dataTag ++ payloadHi ++ ['\n'])) =
      drain parseHi (dataTag ++ payloadHi ++ ['\n']) ∧
    drain parseHi (dataTag ++ payloadHi ++ ['\n']) = (["Hi".toList], []) :=
  ⟨c7_done_line_skipped parseHi doneTag (dataTag ++ payloadHi ++ ['\n'])
      (by decide) (by decide),
   by decide⟩

/-- Claim C8: a complete `"data: "` line whose payload the JSON parser
rejects contributes no event and leaves the rest of the drain unchanged —
decoding continues, so a subsequent well-formed data line still produces
its event (the parse failure is swallowed; the drain has no error path for
it, matching the `Err` arm that only logs, main.rs lines 508-511). -/
theorem c8_invalid_json_skipped (parse : List Char → Option ChatCompletionResponse)
    (line rest payload : List Char)
    (htrim : rustTrim line = dataTag ++ payload)
    (hdone : doneTag.isPrefixOf (dataTag ++ payload) = false)
    (hparse : parse payload = none)
    (hnl : '\n' ∉ line) :
    drain parse (line ++ '\n' :: rest) = drain parse rest := by
  rw [drain_cons parse hnl rest]
  have hp : processLine parse line = [] := by
    unfold processLine
    rw [htrim, isPrefixOf_append_self dataTag payload, hdone, drop_six_dataTag, hparse]
    cases payload <;> simp
  rw [hp]
  simp

/-- Claim C8, witness: the non-JSON payload `"notjson"` is skipped and the
following well-formed frame still emits its event. -/
theorem c8_witness :
    drain parseHi ((dataTag ++ "notjson".toList) ++ '\n' :: (dataTag ++ payloadHi ++ ['\n'])) =
      drain parseHi (dataTag ++ payloadHi ++ ['\n']) ∧
    drain parseHi (dataTag ++ payloadHi ++ ['\n']) = (["Hi".toList], []) :=
  ⟨c8_invalid_json_skipped parseHi (dataTag ++ "notjson".toList)
      (dataTag ++ payloadHi ++ ['\n']) "notjson".toList
      (by decide) (by decide) (by decide) (by decide),
   by decide⟩

/-- Claim C9: line completion is driven solely by `'\n'`: a buffer with no
LF is left untouched by the drain no matter how many bare CRs it contains,
and CRLF framing produces exactly the same drain result as LF framing,
because the whole line is trimmed (removing a trailing CR) before
classification. -/
theorem c9_lf_only_crlf_tolerant (parse : List Char → Option ChatCompletionResponse) :
    (∀ buf : List Char, '\n' ∉ buf → drain parse buf = ([], buf)) ∧
    (∀ ls : List (List Char), (∀ l ∈ ls, '\n' ∉ l) →
      drain parse (unlinesCRLF ls) = drain parse (unlinesLF ls)) := by
  constructor
  · intro buf h
    exact drain_of_not_mem parse h
  · intro ls
    induction ls with
    | nil => intro _; rfl
    | cons l ls ih =>
      intro hls
      have hl : '\n' ∉ l := hls l (List.mem_cons_self l ls)
      have hls' : ∀ x ∈ ls, '\n' ∉ x := fun x hx => hls x (List.mem_cons_of_mem l hx)
      have hlcr : '\n' ∉ l ++ ['\r'] := by
        intro hm
        rcases List.mem_append.mp hm with h1 | h1
        · exact hl h1
        · simp at h1
      have e1 : unlinesCRLF (l :: ls) = (l ++ ['\r']) ++ '\n' :: unlinesCRLF ls :=
        (List.append_assoc l ['\r'] ('\n' :: unlinesCRLF ls)).symm
      have e2 : unlinesLF (l :: ls) = l ++ '\n' :: unlinesLF ls := rfl
      rw [e1, drain_cons parse hlcr, processLine_append_cr,
          e2, drain_cons parse hl, ih hls']

/-- Claim C9, witness: a buffer holding a bare CR but no LF stays buffered
untouched, and a CRLF-framed well-formed stream drains exactly like its
LF-framed counterpart. -/
theorem c9_witness :
    drain parseHi "ab\rcd".toList = ([], "ab\rcd".toList) ∧
    drain parseHi (unlinesCRLF [dataTag ++ payloadHi]) =
      drain parseHi (unlinesLF [dataTag ++ payloadHi]) :=
  ⟨(c9_lf_only_crlf_tolerant parseHi).1 "ab\rcd".toList (by decide),
   (c9_lf_only_crlf_tolerant parseHi).2 [dataTag ++ payloadHi] (by decide)⟩

/-- Claim C4 (amended): for a successfully parsed frame the decoder emits
exactly one event per choice whose `delta.content` is present — including
when it is the empty string — in the order the choices appear, and no event
for a choice whose content is absent: the emitted list is the in-order
`filterMap` of the present contents. -/
theorem c4_one_event_per_present_content
    (parse : List Char → Option ChatCompletionResponse)
    (payload : List Char) (resp : ChatCompletionResponse)
    (hparse : parse payload = some resp)
    (htrim : rustTrim (dataTag ++ payload) = dataTag ++ payload)
    (hdone : doneTag.isPrefixOf (dataTag ++ payload) = false)
    (hne : payload ≠ []) :
    processLine parse (dataTag ++ payload) =
      resp.choices.filterMap (fun c => c.delta.content) := by
  have hpe : payload.isEmpty = false := by
    cases payload with
    | nil => exact absurd rfl hne
    | cons a as => rfl
  unfold processLine
  rw [htrim, isPrefixOf_append_self dataTag payload, hdone, drop_six_dataTag,
      hparse, hpe]
  simp [emitChoices_eq_filterMap]

/-- Claim C4, witness: the payload
`{"choices":[{"delta":{"content":"Hi"}}]}` yields exactly one event,
`"Hi"`. -/
theorem c4_witness :
    processLine parseHi (dataTag ++ payloadHi) = ["Hi".toList] :=
  (c4_one_event_per_present_content parseHi payloadHi
      { choices := [{ delta := { content := some "Hi".toList } }] }
      (by decide) (by decide) (by decide) (by decide)).trans (by decide)

/-- Claim C4, counterexample to the claim as stated: the payload
`{"choices":[{"delta":{"content":""}}]}` has one choice whose content is
present but empty; the claim says no event is emitted for it, yet the code
emits one event carrying the empty string (it prints `""` and flushes,
main.rs lines 502-505, with no emptiness check on `content`). -/
theorem c4_counterexample :
    processLine parseEmpty (dataTag ++ payloadEmpty) = [[]] ∧
    ([[]] : List (List Char)) ≠ [] := by
  exact ⟨by decide, by decide⟩

/-- Claim C1, code divergence at a concrete input: the complete well-formed
stream `"data: " ++ payloadHi ++ "\n"` delivered as a single chunk emits no
event, because `stream_response` appends the first chunk to `incomplete`
(main.rs line 477) but the drain loop runs only inside the subsequent-chunk
loop (lines 483-518), which never executes when the stream has one chunk;
the same bytes split into two chunks emit the one event `"Hi"`.  This
refutes chunk-boundary independence as stated. -/
theorem c1_single_chunk_loses_events :
    streamEvents parseHi [lineHi] = some [] ∧
    streamEvents parseHi [lineHi.take 3, lineHi.drop 3] = some ["Hi".toList] ∧
    lineHi.take 3 ++ lineHi.drop 3 = lineHi := by
  refine ⟨rfl, by decide, by decide⟩

/-- Claim C2, code divergence at a concrete input: after the first chunk
`"data: [DONE]\ntail"` is appended, control returns to the transport to
await the second chunk (the `while let` at main.rs line 483) with
`incomplete` still holding the whole chunk, newline included — the
terminated line has not been extracted, so the LineBuffer invariant fails
at this await point. -/
theorem c2_first_chunk_buffer_invariant_fails :
    streamRun parseHi ["data: [DONE]\ntail".toList] =
      some { incomplete := "data: [DONE]\ntail".toList, events := [] } ∧
    ¬ lineBufferNoNL { incomplete := "data: [DONE]\ntail".toList, events := [] } :=
  ⟨rfl, fun hinv => hinv (by decide)⟩

/-- Claim C3, code divergence at the first-run input: with no config file
(first run) and no `--temperature` flag, the effective configuration's
temperature is `Some(0.7)` — the inherent `AppConfig::default()` sets
`temperature: Some(0.7)` (main.rs line 49) — and the request therefore
serializes a `temperature` field instead of omitting it.  This contradicts
the claim (and the repository's own unit test `test_config_defaults`, which
asserts `AppConfig::default().temperature == None`). -/
theorem c3_first_run_temperature_is_set :
    AppConfig.default.temperature = some (7/10) ∧
    (get_final_config argsNoOverrides (load_config none)).map
      (fun c => c.temperature) = some (some (7/10)) ∧
    (get_final_config argsNoOverrides (load_config none)).map
      (fun c => serializesTemperature (build_request c [])) = some true := by
  have hv : validate_temperature (7/10) = some (7/10) := by
    rw [validate_temperature, if_neg (not_not_intro (by norm_num))]
  refine ⟨rfl, ?_, ?_⟩ <;>
    simp [get_final_config, load_config, argsNoOverrides, AppConfig.default, hv,
          build_request, serializesTemperature]
